import Mathlib

/-!
Shallow embedding of the timetable extraction pipeline of this repository:
`src/utils/fileProcessor.ts` (functions `isPdf`, `processPdf`,
`processImage`, `processFile`) together with the zod schemas of
`src/types/zodSchemas.ts` (`TimetableEventSchema`,
`TimetableExtractionResultSchema`).

External effects (pdf-parse / sharp / the Anthropic API call, `JSON.parse`,
and the wall clock) are supplied through an oracle record, so every pipeline
function is a total Lean function of the file, the oracle and the message
strings.  String mechanics (`split`, `includes`, the code-fence regex
replaces, the JSON-span regex, `trim`) are translated to executable
functions over `List Char`.
-/

set_option maxRecDepth 8000

/-- Left brace character, written via its code point to keep brace
characters out of literals. -/
def lbrace : Char := Char.ofNat 123

/-- Right brace character. -/
def rbrace : Char := Char.ofNat 125

/-- Backtick character, used by the markdown code-fence markers. -/
def backtick : Char := Char.ofNat 96

/-- Uploaded file as the processor sees it (an Express/Multer file):
`originalname`, `mimetype`, `size`.  The raw byte content is not modelled
directly; it reaches the pipeline only through the effect oracle below. -/
structure FileUpload where
  originalname : String
  mimetype : String
  size : Nat
deriving DecidableEq

/-- `isPdf` from fileProcessor.ts: the mimetype equals `application/pdf`, or
the lowercased filename ends with `.pdf`.  JS `toLowerCase`/`endsWith` are
modelled by `Char.toLower` over the characters and a list suffix test. -/
def isPdf (file : FileUpload) : Bool :=
  file.mimetype == ("application/pdf") ||
    List.isSuffixOf (".pdf").data (file.originalname.data.map Char.toLower)

/-- The spec's `ExtractionMode`; in the source it is realized by the
`isPdf` branch inside `processFile`. -/
inductive ExtractionMode where
  | textDocument
  | visionImage
deriving DecidableEq

/-- File-type classification: the branch taken by `processFile`. -/
def classifyFile (file : FileUpload) : ExtractionMode :=
  if isPdf file then ExtractionMode.textDocument else ExtractionMode.visionImage

/-- Candidate event as delivered by `JSON.parse` of the model reply, before
zod validation.  An absent field (JS `undefined`) is `none`.  JSON values of
non-string type are outside the model (the zod schema would reject them the
same way it rejects an absent required field). -/
structure RawEvent where
  title : Option String
  day : Option String
  startTime : Option String
  endTime : Option String
  location : Option String
  description : Option String
  metadata : Option String
  subject : Option String
  additionalInfo : Option String
deriving DecidableEq

/-- `TimetableMetadataSchema`: header-level metadata, all fields optional. -/
structure TimetableMetadata where
  schoolName : Option String
  className : Option String
  term : Option String
  teacherName : Option String
  academicYear : Option String
deriving DecidableEq

/-- Candidate extraction result (`rawData` after `JSON.parse`): optional
header metadata and an optional list of candidate events.  `events = none`
models a reply whose JSON has no `events` array (the zod parse then
fails). -/
structure RawResult where
  metadata : Option TimetableMetadata
  events : Option (List RawEvent)
deriving DecidableEq

/-- Event shape after `TimetableEventSchema.parse` succeeded: `title`
non-empty, `startTime`/`endTime` matching the time regex, the optional
fields passed through. -/
structure VEvent where
  title : String
  day : Option String
  startTime : String
  endTime : String
  location : Option String
  description : Option String
  metadata : Option String
  subject : Option String
  additionalInfo : Option String
deriving DecidableEq

/-- Result shape after `TimetableExtractionResultSchema.parse` succeeded. -/
structure VResult where
  metadata : Option TimetableMetadata
  events : List VEvent
deriving DecidableEq

/-- Persisted event shape produced by the transformation step inside
`processPdf`/`processImage`.  `confidence` is modelled as a rational; the
source stores the literal `0.85`. -/
structure PersistedEvent where
  name : String
  day : String
  startTime : String
  endTime : String
  durationMinutes : Int
  location : String
  notes : String
  metadata : String
  subject : String
  additionalInfo : String
  confidence : ℚ
deriving DecidableEq

/-- The `source` block of an extraction result. -/
structure ExtractionSource where
  filename : String
  mimetype : String
  size : Nat
  processedAt : String
deriving DecidableEq

/-- The result object returned by `processPdf`/`processImage`/`processFile`.
The failure ("stub") results of the source carry no `metadata` key, hence
`metadata : Option TimetableMetadata`. -/
structure ExtractionResult where
  source : ExtractionSource
  metadata : Option TimetableMetadata
  events : List PersistedEvent
  warnings : List String
deriving DecidableEq

/-- Effect oracle for one run.  `tryStep` is the combined outcome of the
code inside the outer `try` up to obtaining the reply text: an exception
(with its message) thrown by content extraction or by the provider call, or
the text of the model reply (`""` when the reply had no text block).
`jsParse` is the behavior of `JSON.parse` on the extracted span, abstracted
to the typed candidate shape; `now` is `new Date().toISOString()`. -/
structure RunOracle where
  tryStep : Except String String
  jsParse : String → Except String RawResult
  now : String

/-- JS `String.prototype.split` with a one-character separator:
`splitChar c s` never returns `[]` and concatenating the pieces with `c`
restores `s`. -/
def splitChar (sep : Char) : List Char → List (List Char)
  | [] => [[]]
  | c :: cs =>
    if c == sep then [] :: splitChar sep cs
    else
      match splitChar sep cs with
      | [] => [[c]]
      | h :: t => (c :: h) :: t

/-- First index at which `p` holds, as in the leftmost regex match. -/
def firstIdx (p : Char → Bool) : List Char → Option Nat
  | [] => none
  | c :: cs => if p c then some 0 else (firstIdx p cs).map (· + 1)

/-- The JSON-span regex of the source, `match(/\x7b[\s\S]*\x7d/)`: the
leftmost match of that regex is the substring from the first left brace to
the last right brace, and it exists exactly when some right brace occurs
after some left brace. -/
def extractJsonList (s : List Char) : Option (List Char) :=
  match firstIdx (fun c => c == lbrace) s with
  | none => none
  | some i =>
    match firstIdx (fun c => c == rbrace) s.reverse with
    | none => none
    | some k =>
      let j := s.length - 1 - k
      if i < j then some ((s.drop i).take (j - i + 1)) else none

/-- String wrapper for `extractJsonList`. -/
def extractJsonStr (s : String) : Option String :=
  (extractJsonList s.data).map String.mk

/-- Drop one leading newline if present (the `\n?` of the fence regexes). -/
def dropNl : List Char → List Char
  | c :: r => if c == '\n' then r else c :: r
  | [] => []

/-- Characters of the fence marker with language tag removed by the first
`replace` of the source. -/
def fenceJson : List Char := [backtick, backtick, backtick, 'j', 's', 'o', 'n']

/-- Characters of the plain triple-backtick fence marker. -/
def fence3 : List Char := [backtick, backtick, backtick]

/-- One global regex replace of `pat` followed by an optional newline with
the empty string, as JS `replace(/pat\n?/g, "")`: scan left to right, on a
match resume after the match, never rescan produced text.  Structural
recursion on a fuel that the callers set to the input length (enough, since
every step consumes at least one character). -/
def stripGo (pat : List Char) : Nat → List Char → List Char
  | 0, s => s
  | _ + 1, [] => []
  | f + 1, c :: cs =>
    if List.isPrefixOf pat (c :: cs) then
      stripGo pat f (dropNl (List.drop pat.length (c :: cs)))
    else
      c :: stripGo pat f cs

/-- Both fence replaces of the source, in source order. -/
def stripFences (s : List Char) : List Char :=
  let s1 := stripGo fenceJson s.length s
  stripGo fence3 s1.length s1

/-- Whitespace test of JS `trim`, restricted to the common whitespace
characters. -/
def isWsChar (c : Char) : Bool :=
  (c == ' ') || (c == '\n') || (c == '\t') || (c == '\r')

/-- JS `String.prototype.trim`. -/
def trimList (s : List Char) : List Char :=
  (((s.dropWhile isWsChar).reverse.dropWhile isWsChar)).reverse

/-- The `cleanedText` expression of the source: strip the two fence
patterns, then trim. -/
def cleanResponse (s : String) : String :=
  String.mk (trimList (stripFences s.data))

/-- Value of a decimal digit character. -/
def digitVal (c : Char) : Nat := c.toNat - 48

/-- Decimal value of a digit string; models JS `Number` on the all-digit
strings that validation guarantees reach it. -/
def digitsToNat (l : List Char) : Nat :=
  l.foldl (fun a c => a * 10 + digitVal c) 0

/-- Days in a month of the proleptic Gregorian calendar. -/
def daysInMonth (y m : Nat) : Nat :=
  if m == 2 then
    if (y % 4 == 0 && y % 100 != 0) || y % 400 == 0 then 29 else 28
  else if m == 4 || m == 6 || m == 9 || m == 11 then 30 else 31

/-- Parse a full-precision ISO date `YYYY-MM-DD` with in-range month and
day, the date-only strings `new Date` accepts as a valid calendar date.
Anything else yields `none` (an invalid JS `Date`). -/
def parseIsoDate (s : String) : Option (Nat × Nat × Nat) :=
  match s.data with
  | [y1, y2, y3, y4, s1, m1, m2, s2, d1, d2] =>
    if y1.isDigit && y2.isDigit && y3.isDigit && y4.isDigit &&
        s1 == '-' && m1.isDigit && m2.isDigit && s2 == '-' &&
        d1.isDigit && d2.isDigit then
      let y := digitsToNat [y1, y2, y3, y4]
      let m := digitsToNat [m1, m2]
      let d := digitsToNat [d1, d2]
      if 1 ≤ m && m ≤ 12 && 1 ≤ d && d ≤ daysInMonth y m then
        some (y, m, d)
      else none
    else none
  | _ => none

/-- Day count of a civil date shifted by 400 years (weekday-preserving,
since 400 Gregorian years are exactly 146097 days, a multiple of 7) so the
whole computation stays in `Nat`. -/
def civilDays (y m d : Nat) : Nat :=
  let yy := y + 400
  let y2 := if m ≤ 2 then yy - 1 else yy
  let era := y2 / 400
  let yoe := y2 % 400
  let mp := if 2 < m then m - 3 else m + 9
  let doy := (153 * mp + 2) / 5 + d - 1
  let doe := yoe * 365 + yoe / 4 - yoe / 100 + doy
  era * 146097 + doe

/-- JS `Date.prototype.getDay` (0 = Sunday) of a civil date, for a process
running in UTC; the offset is calibrated so 1970-01-01 is a Thursday. -/
def jsGetDay (y m d : Nat) : Nat := (civilDays y m d + 3) % 7

/-- The `days` array of the source. -/
def weekdayNames : List String :=
  [("Sunday"), ("Monday"), ("Tuesday"), ("Wednesday"), ("Thursday"),
    ("Friday"), ("Saturday")]

/-- `days[new Date(dateStr).getDay()]`: the weekday name of a valid ISO
date string, `none` (JS `undefined`) when the date is invalid. -/
def dayLookup (dateStr : String) : Option String :=
  match parseIsoDate dateStr with
  | none => none
  | some (y, m, d) => weekdayNames.get? (jsGetDay y m d)

/-- The per-event body of the day/time normalization `map` that both
`processPdf` and `processImage` run on `rawData.events` before validation.
`Except.error` models the `TypeError` thrown when a field the code
dereferences is `undefined`; it is caught by the surrounding `catch`. -/
def normalizeEvent (event : RawEvent) : Except String RawEvent :=
  match event.startTime with
  | none => Except.error ("TypeError: startTime is undefined")
  | some st =>
    if st.data.contains 'T' then
      match event.endTime with
      | none => Except.error ("TypeError: endTime is undefined")
      | some et =>
        let dateStr := String.mk ((splitChar 'T' st.data).headD [])
        Except.ok
          { event with
            day := dayLookup dateStr
            startTime := ((splitChar 'T' st.data).get? 1).map String.mk
            endTime := ((splitChar 'T' et.data).get? 1).map String.mk }
    else
      Except.ok { event with day := some ("Monday") }

/-- Left-to-right effectful `map`, stopping at the first error, as a JS
`Array.prototype.map` whose callback can throw. -/
def mapExcept (f : RawEvent → Except String RawEvent) :
    List RawEvent → Except String (List RawEvent)
  | [] => Except.ok []
  | e0 :: rest =>
    match f e0 with
    | Except.error msg => Except.error msg
    | Except.ok v0 =>
      match mapExcept f rest with
      | Except.error msg => Except.error msg
      | Except.ok vs => Except.ok (v0 :: vs)

/-- The guarded normalization block: map `normalizeEvent` over the events
when an events array is present, leave the object unchanged otherwise. -/
def normalizeEvents (raw : RawResult) : Except String RawResult :=
  match raw.events with
  | none => Except.ok raw
  | some evs =>
    match mapExcept normalizeEvent evs with
    | Except.error e => Except.error e
    | Except.ok evs2 => Except.ok { raw with events := some evs2 }

/-- The time regex of `TimetableEventSchema`:
two digits, colon, two digits, optionally colon and two more digits. -/
def timePattern (s : String) : Bool :=
  match s.data with
  | [a, b, c, d, e] =>
    a.isDigit && b.isDigit && c == ':' && d.isDigit && e.isDigit
  | [a, b, c, d, e, f, g, h] =>
    a.isDigit && b.isDigit && c == ':' && d.isDigit && e.isDigit &&
      f == ':' && g.isDigit && h.isDigit
  | _ => false

/-- `TimetableEventSchema.parse` on one candidate event: `title` a
non-empty string, `startTime`/`endTime` strings matching `timePattern`;
optional fields pass through. -/
def validateEvent (event : RawEvent) : Option VEvent :=
  match event.title, event.startTime, event.endTime with
  | some t, some st, some et =>
    if !t.isEmpty && timePattern st && timePattern et then
      some
        { title := t, day := event.day, startTime := st, endTime := et
          location := event.location, description := event.description
          metadata := event.metadata, subject := event.subject
          additionalInfo := event.additionalInfo }
    else none
  | _, _, _ => none

/-- All-or-nothing validation of the events array. -/
def mapOption (f : RawEvent → Option VEvent) :
    List RawEvent → Option (List VEvent)
  | [] => some []
  | e0 :: rest =>
    match f e0 with
    | none => none
    | some v0 =>
      match mapOption f rest with
      | none => none
      | some vs => some (v0 :: vs)

/-- `TimetableExtractionResultSchema.parse`: requires the events array and
validates every event; one invalid event rejects the whole result. -/
def validateResult (raw : RawResult) : Option VResult :=
  match raw.events with
  | none => none
  | some evs =>
    match mapOption validateEvent evs with
    | none => none
    | some ves => some { metadata := raw.metadata, events := ves }

/-- JS `x || d` on an optional string field: the default replaces both an
absent value and the empty string. -/
def jsOrDefault (o : Option String) (d : String) : String :=
  match o with
  | some s => if s.isEmpty then d else s
  | none => d

/-- The per-event transformation lambda of `processPdf`/`processImage`
(`parsed.events.map(...)`): split the times on `:`, convert with `Number`,
compute the duration, default the optional fields, attach the constant
confidence. -/
def transformEvent (event : VEvent) : PersistedEvent :=
  let sParts := (splitChar ':' event.startTime.data).map digitsToNat
  let eParts := (splitChar ':' event.endTime.data).map digitsToNat
  let startHour := sParts.getD 0 0
  let startMin := sParts.getD 1 0
  let endHour := eParts.getD 0 0
  let endMin := eParts.getD 1 0
  { name := event.title
    day := jsOrDefault event.day ("Monday")
    startTime := event.startTime
    endTime := event.endTime
    durationMinutes :=
      ((endHour * 60 + endMin : Nat) : Int) - ((startHour * 60 + startMin : Nat) : Int)
    location := jsOrDefault event.location ("")
    notes := jsOrDefault event.description ("")
    metadata := jsOrDefault event.metadata ("")
    subject := jsOrDefault event.subject ("")
    additionalInfo := jsOrDefault event.additionalInfo ("")
    confidence := 85 / 100 }

/-- Metadata object `\x7b\x7d` used by `parsed.metadata || \x7b\x7d`. -/
def emptyMetadata : TimetableMetadata := ⟨none, none, none, none, none⟩

/-- Placeholder for the zod issue report text carried by the schema
validation exception; no claim constrains its wording. -/
def zodIssueText : String := "schema validation failed"

/-- Shared body of `processPdf` and `processImage` (the two functions are
textually duplicated in the source up to their warning strings); every
failure is caught locally and becomes the stub result with one warning. -/
def runPipeline ( failMsg : String) ( infoMsg : String)
    (file : FileUpload) (o : RunOracle) : ExtractionResult :=
  let src : ExtractionSource :=
    ⟨file.originalname, file.mimetype, file.size, o.now⟩
  match o.tryStep with
  | Except.error msg => ⟨src, none, [], [failMsg ++ msg]⟩
  | Except.ok text =>
    match extractJsonStr (cleanResponse text) with
    | none => ⟨src, none, [], [("Claude did not return a valid JSON extraction.")]⟩
    | some payload =>
      match o.jsParse payload with
      | Except.error m =>
        ⟨src, none, [], [("Claude returned invalid JSON or schema: ") ++ m]⟩
      | Except.ok raw =>
        match normalizeEvents raw with
        | Except.error m =>
          ⟨src, none, [], [("Claude returned invalid JSON or schema: ") ++ m]⟩
        | Except.ok raw2 =>
          match validateResult raw2 with
          | none =>
            ⟨src, none, [],
              [("Claude returned invalid JSON or schema: ") ++ zodIssueText]⟩
          | some parsed =>
            ⟨src, some ((parsed.metadata).getD emptyMetadata),
              parsed.events.map transformEvent, [] ++ [infoMsg]⟩

/-- `processPdf` of fileProcessor.ts. -/
def processPdf (file : FileUpload) (o : RunOracle) : ExtractionResult :=
  runPipeline ("Claude PDF processing failed: ") ("Processed PDF with Claude.") file o

/-- `processImage` of fileProcessor.ts. -/
def processImage (file : FileUpload) (o : RunOracle) : ExtractionResult :=
  runPipeline ("Claude image processing failed: ") ("Processed image with Claude.") file o

/-- `processFile`, the exported entry point: route on `isPdf`.  Its own
`try`/`catch` re-throws, but both processors return normally on every path,
so the model is a total function. -/
def processFile (file : FileUpload) (o : RunOracle) : ExtractionResult :=
  if isPdf file then processPdf file o else processImage file o

/-- Missing-or-malformed time test of one optional field, as the zod regex
sees it: an absent value or a value failing `timePattern`. -/
def badTimeB (o : Option String) : Bool :=
  match o with
  | none => true
  | some s => !timePattern s

/-- Sample PDF upload. -/
def exPdfFile : FileUpload := ⟨("timetable.pdf"), ("application/pdf"), 2048⟩

/-- Sample image upload. -/
def exImgFile : FileUpload := ⟨("photo.png"), ("image/png"), 4096⟩

/-- Sample timestamp for the oracle clock. -/
def exNow : String := ("2025-01-02T03:04:05.000Z")

/-- Oracle whose content-extraction/provider step throws. -/
def exOracleFail : RunOracle :=
  ⟨Except.error ("ENOENT: unreadable file"), fun _ => Except.error ("unused"), exNow⟩

/-- Sample model reply text: a brace-delimited payload. -/
def exReplyText : String := ("\x7bevents\x7d")

/-- Candidate event of a well-formed reply, before normalization. -/
def exRawEventGood : RawEvent :=
  ⟨some ("Science"), some ("Tuesday"), some ("13:30"), some ("14:30"),
    none, none, none, none, none⟩

/-- Candidate result of a well-formed reply. -/
def exRawGood : RawResult := ⟨none, some [exRawEventGood]⟩

/-- `exRawGood` after day/time normalization. -/
def exRawGoodNorm : RawResult :=
  ⟨none, some [⟨some ("Science"), some ("Monday"), some ("13:30"), some ("14:30"),
    none, none, none, none, none⟩]⟩

/-- `exRawGoodNorm` after schema validation. -/
def exVGood : VResult :=
  ⟨none, [⟨("Science"), some ("Monday"), ("13:30"), ("14:30"),
    none, none, none, none, none⟩]⟩

/-- Oracle of a fully successful run. -/
def exOracleGood : RunOracle :=
  ⟨Except.ok exReplyText, fun _ => Except.ok exRawGood, exNow⟩

/-- Validated event used to evaluate the duration computation. -/
def exVEventC2 : VEvent :=
  ⟨("Science"), none, ("13:30"), ("14:30"), none, none, none, none, none⟩

/-- Validated event with every optional field absent. -/
def exVEventC7 : VEvent :=
  ⟨("Maths"), none, ("09:00"), ("10:00"), none, none, none, none, none⟩

/-- Candidate event carrying a combined ISO timestamp. -/
def exC3Event : RawEvent :=
  ⟨some ("Science"), none, some ("2025-11-03T13:30:00"),
    some ("2025-11-03T14:30:00"), none, none, none, none, none⟩

/-- Candidate event with a model-supplied day and a plain clock time. -/
def exC4Event : RawEvent :=
  ⟨some ("Maths"), some ("Tuesday"), some ("09:00"), some ("10:00"),
    none, none, none, none, none⟩

/-- Candidate result whose only event has an empty title. -/
def exC5Raw0 : RawResult :=
  ⟨none, some [⟨some (""), none, some ("13:30"), some ("14:30"),
    none, none, none, none, none⟩]⟩

/-- The empty-title event after normalization. -/
def exC5EventNorm : RawEvent :=
  ⟨some (""), some ("Monday"), some ("13:30"), some ("14:30"),
    none, none, none, none, none⟩

/-- `exC5Raw0` after normalization. -/
def exC5Raw : RawResult := ⟨none, some [exC5EventNorm]⟩

/-- Oracle delivering the empty-title candidate. -/
def exOracleC5 : RunOracle :=
  ⟨Except.ok exReplyText, fun _ => Except.ok exC5Raw0, exNow⟩

/-- Candidate event whose startTime has a date-time separator but whose
endTime does not. -/
def exC10Event : RawEvent :=
  ⟨some ("PE"), none, some ("2025-11-03T13:30:00"), some ("14:30"),
    none, none, none, none, none⟩

/-- Candidate result containing `exC10Event`. -/
def exC10Raw : RawResult := ⟨none, some [exC10Event]⟩

/-- Oracle delivering `exC10Raw`. -/
def exOracleC10 : RunOracle :=
  ⟨Except.ok exReplyText, fun _ => Except.ok exC10Raw, exNow⟩

/-! ### Helper lemmas -/

theorem splitChar_of_not_mem {sep : Char} :
    ∀ {l : List Char}, sep ∉ l → splitChar sep l = [l]
  | [], _ => rfl
  | c :: cs, h => by
    have hc : (c == sep) = false :=
      beq_eq_false_iff_ne.mpr (fun hh => h (hh ▸ List.mem_cons_self c cs))
    have ih := splitChar_of_not_mem (l := cs) (fun hm => h (List.mem_cons_of_mem c hm))
    simp [splitChar, hc, ih]

theorem splitChar_sandwich {sep : Char} :
    ∀ {a : List Char}, ∀ {b : List Char}, sep ∉ a → sep ∉ b →
      splitChar sep (a ++ sep :: b) = [a, b]
  | [], b, _, hb => by
    simp [splitChar, splitChar_of_not_mem hb]
  | c :: a2, b, ha, hb => by
    have hc : (c == sep) = false :=
      beq_eq_false_iff_ne.mpr (fun hh => ha (hh ▸ List.mem_cons_self c a2))
    have ih := splitChar_sandwich (a := a2) (b := b)
      (fun hm => ha (List.mem_cons_of_mem c hm)) hb
    simp [splitChar, hc, ih]

theorem mapExcept_mem {f : RawEvent → Except String RawEvent} :
    ∀ {l : List RawEvent}, ∀ {l2 : List RawEvent}, ∀ {a : RawEvent},
      mapExcept f l = Except.ok l2 → a ∈ l →
      ∃ b, f a = Except.ok b ∧ b ∈ l2
  | [], _, _, _, hm => absurd hm (List.not_mem_nil _)
  | x :: xs, l2, a, h, hm => by
    rw [mapExcept] at h
    cases hfx : f x with
    | error e => rw [hfx] at h; exact absurd h (by simp)
    | ok b =>
      rw [hfx] at h
      cases hxs : mapExcept f xs with
      | error e => rw [hxs] at h; exact absurd h (by simp)
      | ok bs =>
        rw [hxs] at h
        have hl2 : l2 = b :: bs := by
          have := h; simp at this; exact this.symm
        rcases List.mem_cons.mp hm with rfl | hmem
        · exact ⟨b, hfx, hl2 ▸ List.mem_cons_self b bs⟩
        · obtain ⟨b2, hb2, hb2m⟩ := mapExcept_mem hxs hmem
          exact ⟨b2, hb2, hl2 ▸ List.mem_cons_of_mem b hb2m⟩

theorem mapOption_eq_none {f : RawEvent → Option VEvent} :
    ∀ {l : List RawEvent}, ∀ {a : RawEvent}, a ∈ l → f a = none →
      mapOption f l = none
  | [], _, hm, _ => absurd hm (List.not_mem_nil _)
  | x :: xs, a, hm, hfa => by
    rcases List.mem_cons.mp hm with rfl | hmem
    · simp [mapOption, hfa]
    · rw [mapOption]
      cases hfx : f x with
      | none => rfl
      | some b => rw [mapOption_eq_none hmem hfa]

/-! ### Claims -/

/-- Claim C1: for every uploaded file, the entry point `processFile` returns
a well-formed `ExtractionResult` (it is a total function of the file and the
effect oracle), and when content extraction or the provider call throws, the
result has no events and exactly one warning describing the failure. -/
theorem claim_C1 (file : FileUpload) (o : RunOracle) (msg : String)
    (h : o.tryStep = Except.error msg) :
    (processFile file o).events = [] ∧
    (processFile file o).warnings =
      [(if isPdf file then ("Claude PDF processing failed: ")
        else ("Claude image processing failed: ")) ++ msg] := by
  by_cases hp : isPdf file = true
  · simp [processFile, processPdf, runPipeline, h, hp]
  · simp [processFile, processImage, runPipeline, h, hp]

/-- Witness for C1 at a concrete PDF upload whose extraction throws. -/
theorem claim_C1_witness :
    (processFile exPdfFile exOracleFail).events = [] ∧
    (processFile exPdfFile exOracleFail).warnings =
      [("Claude PDF processing failed: ENOENT: unreadable file")] := by
  have h := claim_C1 exPdfFile exOracleFail ("ENOENT: unreadable file") rfl
  refine ⟨h.1, ?_⟩
  rw [h.2]
  decide

/-- Claim C2: for validated events whose times match `HH:MM`, the transform
computes `durationMinutes` as the exact signed minute difference of the
digit values, with no clamping. -/
theorem claim_C2 (ev : VEvent) (a b c d a2 b2 c2 d2 : Char)
    (hs : ev.startTime.data = [a, b, ':', c, d])
    (hds : (a.isDigit && b.isDigit && c.isDigit && d.isDigit) = true)
    (he : ev.endTime.data = [a2, b2, ':', c2, d2])
    (hde : (a2.isDigit && b2.isDigit && c2.isDigit && d2.isDigit) = true) :
    (transformEvent ev).durationMinutes =
      ((((a2.toNat - 48) * 10 + (b2.toNat - 48)) * 60 +
        ((c2.toNat - 48) * 10 + (d2.toNat - 48)) : Nat) : Int) -
      ((((a.toNat - 48) * 10 + (b.toNat - 48)) * 60 +
        ((c.toNat - 48) * 10 + (d.toNat - 48)) : Nat) : Int) := by
  simp only [Bool.and_eq_true] at hds hde
  obtain ⟨⟨⟨ha, hb⟩, hc⟩, hd⟩ := hds
  obtain ⟨⟨⟨ha2, hb2⟩, hc2⟩, hd2⟩ := hde
  have key : ∀ x : Char, x.isDigit = true → (x == ':') = false := fun x hx =>
    beq_eq_false_iff_ne.mpr (fun hh => by
      rw [hh] at hx; exact absurd hx (by decide))
  simp [transformEvent, hs, he, splitChar, key a ha, key b hb, key c hc,
    key d hd, key a2 ha2, key b2 hb2, key c2 hc2, key d2 hd2,
    digitsToNat, digitVal]

/-- Witness for C2: 13:30 to 14:30 is 60 minutes. -/
theorem claim_C2_witness : (transformEvent exVEventC2).durationMinutes = 60 := by
  have h := claim_C2 exVEventC2 '1' '3' '3' '0' '1' '4' '3' '0'
    rfl (by decide) rfl (by decide)
  rw [h]
  decide

/-- Claim C7: the transform assigns the constant confidence 0.85, which lies
in the unit interval, and defaults the absent optional fields to the empty
string (notes, location, metadata, subject, additionalInfo) and the still
absent or empty day to Monday. -/
theorem claim_C7 (ev : VEvent) :
    (transformEvent ev).confidence = 85 / 100 ∧
    0 ≤ (transformEvent ev).confidence ∧
    (transformEvent ev).confidence ≤ 1 ∧
    ((ev.day = none ∨ ev.day = some ("")) → (transformEvent ev).day = ("Monday")) ∧
    (ev.location = none → (transformEvent ev).location = ("")) ∧
    (ev.description = none → (transformEvent ev).notes = ("")) ∧
    (ev.metadata = none → (transformEvent ev).metadata = ("")) ∧
    (ev.subject = none → (transformEvent ev).subject = ("")) ∧
    (ev.additionalInfo = none → (transformEvent ev).additionalInfo = ("")) := by
  refine ⟨rfl, by norm_num [transformEvent], by norm_num [transformEvent],
    ?_, ?_, ?_, ?_, ?_, ?_⟩
  · rintro (h | h)
    · simp [transformEvent, jsOrDefault, h]
    · simp [transformEvent, jsOrDefault, h]
      decide
  all_goals intro h
  all_goals simp [transformEvent, jsOrDefault, h]

/-- Witness for C7 at an event with every optional field absent. -/
theorem claim_C7_witness :
    (transformEvent exVEventC7).confidence = 85 / 100 ∧
    (transformEvent exVEventC7).day = ("Monday") ∧
    (transformEvent exVEventC7).location = ("") ∧
    (transformEvent exVEventC7).notes = ("") ∧
    (transformEvent exVEventC7).metadata = ("") ∧
    (transformEvent exVEventC7).subject = ("") ∧
    (transformEvent exVEventC7).additionalInfo = ("") := by
  obtain ⟨h1, _, _, h4, h5, h6, h7, h8, h9⟩ := claim_C7 exVEventC7
  exact ⟨h1, h4 (Or.inl rfl), h5 rfl, h6 rfl, h7 rfl, h8 rfl, h9 rfl⟩

/-- Claim C8: classification is pure and total; every file maps to exactly
one mode, a file is `textDocument` exactly when its mimetype is
`application/pdf` or its lowercased name ends in `.pdf`, every other file is
`visionImage`, and `processFile` routes by exactly this classification. -/
theorem claim_C8 (file : FileUpload) (o : RunOracle) :
    ((classifyFile file = ExtractionMode.textDocument ∨
        classifyFile file = ExtractionMode.visionImage) ∧
      ¬(classifyFile file = ExtractionMode.textDocument ∧
        classifyFile file = ExtractionMode.visionImage)) ∧
    (classifyFile file = ExtractionMode.textDocument ↔
      (file.mimetype = ("application/pdf") ∨
        List.isSuffixOf (".pdf").data (file.originalname.data.map Char.toLower) = true)) ∧
    processFile file o =
      (if classifyFile file = ExtractionMode.textDocument then processPdf file o
        else processImage file o) := by
  have hiff : isPdf file = true ↔
      (file.mimetype = ("application/pdf") ∨
        List.isSuffixOf (".pdf").data (file.originalname.data.map Char.toLower) = true) := by
    simp [isPdf, Bool.or_eq_true, beq_iff_eq]
  by_cases hp : isPdf file = true
  · have hc : classifyFile file = ExtractionMode.textDocument := by
      simp [classifyFile, hp]
    refine ⟨⟨Or.inl hc, fun hb => ?_⟩, ?_, ?_⟩
    · exact ExtractionMode.noConfusion (hb.1.symm.trans hb.2)
    · rw [hc]; simp only [true_iff]; exact hiff.mp hp
    · rw [hc]; simp [processFile, hp]
  · have hc : classifyFile file = ExtractionMode.visionImage := by
      simp [classifyFile, hp]
    refine ⟨⟨Or.inr hc, fun hb => ?_⟩, ?_, ?_⟩
    · exact ExtractionMode.noConfusion (hb.1.symm.trans hb.2)
    · rw [hc]
      constructor
      · intro hh; exact absurd hh (by decide)
      · intro hh; exact absurd (hiff.mpr hh) hp
    · rw [hc]
      simp [processFile, hp]

/-- Witness for C8: a PDF upload classifies as text, a PNG as image. -/
theorem claim_C8_witness :
    classifyFile exPdfFile = ExtractionMode.textDocument ∧
    classifyFile exImgFile = ExtractionMode.visionImage := by
  constructor
  · exact ((claim_C8 exPdfFile exOracleFail).2.1).mpr (Or.inl rfl)
  · refine ((claim_C8 exImgFile exOracleFail).1.1).resolve_left (fun hh => ?_)
    have hd := ((claim_C8 exImgFile exOracleFail).2.1).mp hh
    revert hd; decide

/-- Claim C9: a fully successful run appends, after the (empty) accumulated
warnings, exactly one informational warning naming the extraction path taken
(PDF via text vs image via vision), and returns the transformed events. -/
theorem claim_C9 (file : FileUpload) (o : RunOracle) (text payload : String)
    (raw raw2 : RawResult) (v : VResult)
    (h1 : o.tryStep = Except.ok text)
    (h2 : extractJsonStr (cleanResponse text) = some payload)
    (h3 : o.jsParse payload = Except.ok raw)
    (h4 : normalizeEvents raw = Except.ok raw2)
    (h5 : validateResult raw2 = some v) :
    (processFile file o).warnings =
      [] ++ [(if isPdf file then ("Processed PDF with Claude.")
        else ("Processed image with Claude."))] ∧
    (processFile file o).events = v.events.map transformEvent := by
  by_cases hp : isPdf file = true
  · simp [processFile, processPdf, runPipeline, h1, h2, h3, h4, h5, hp]
  · simp [processFile, processImage, runPipeline, h1, h2, h3, h4, h5, hp]

/-- Witness for C9: a complete successful PDF run. -/
theorem claim_C9_witness :
    (processFile exPdfFile exOracleGood).warnings = [("Processed PDF with Claude.")] ∧
    (processFile exPdfFile exOracleGood).events = exVGood.events.map transformEvent := by
  have h := claim_C9 exPdfFile exOracleGood exReplyText exReplyText
    exRawGood exRawGoodNorm exVGood rfl (by decide) rfl rfl rfl
  refine ⟨?_, h.2⟩
  rw [h.1]
  decide

theorem string_data_append (a b : String) : (a ++ b).data = a.data ++ b.data := by
  cases a; cases b; rfl

theorem string_mk_data (s : String) : String.mk s.data = s := by
  cases s; rfl

/-- Claim C3: when a candidate `startTime` carries the date-time separator,
the normalizer derives `day` by calendar day-of-week lookup on the date
portion and rewrites `startTime`/`endTime` to their time-only portions; in
particular the date 2025-11-03 looks up as Monday. -/
theorem claim_C3 :
    (∀ (ev : RawEvent) (d t d2 t2 : String),
      ev.startTime = some (d ++ ("T") ++ t) →
      'T' ∉ d.data → 'T' ∉ t.data →
      ev.endTime = some (d2 ++ ("T") ++ t2) →
      'T' ∉ d2.data → 'T' ∉ t2.data →
      normalizeEvent ev = Except.ok
        { ev with day := dayLookup d, startTime := some t, endTime := some t2 }) ∧
    dayLookup ("2025-11-03") = some ("Monday") := by
  constructor
  · intro ev d t d2 t2 hst hd ht het hd2 ht2
    have hdata : (d ++ ("T") ++ t).data = d.data ++ 'T' :: t.data := by
      rw [string_data_append, string_data_append]
      simp
    have hdata2 : (d2 ++ ("T") ++ t2).data = d2.data ++ 'T' :: t2.data := by
      rw [string_data_append, string_data_append]
      simp
    have hcont : (d.data ++ 'T' :: t.data).contains 'T' = true := by
      simp
    simp [normalizeEvent, hst, het, hdata, hdata2, hcont,
      splitChar_sandwich hd ht, splitChar_sandwich hd2 ht2, string_mk_data]
  · decide

/-- Witness for C3 at the combined timestamp of the spec example. -/
theorem claim_C3_witness :
    normalizeEvent exC3Event = Except.ok
      { exC3Event with
          day := some ("Monday")
          startTime := some ("13:30:00")
          endTime := some ("14:30:00") } := by
  have h := claim_C3.1 exC3Event ("2025-11-03") ("13:30:00") ("2025-11-03") ("14:30:00")
    rfl (by decide) (by decide) rfl (by decide) (by decide)
  rw [claim_C3.2] at h
  exact h

/-- Claim C4 evaluated on the code (the claim itself is refuted): at a
candidate event with the model-supplied `day = "Tuesday"` and a plain
`startTime = "09:00"` (no separator), the normalizer does NOT leave the day
as supplied; it rewrites it to "Monday". -/
theorem claim_C4 :
    exC4Event.startTime = some ("09:00") ∧
    ("09:00").data.contains 'T' = false ∧
    exC4Event.day = some ("Tuesday") ∧
    normalizeEvent exC4Event = Except.ok { exC4Event with day := some ("Monday") } := by
  exact ⟨rfl, by decide, rfl, rfl⟩

/-- Claim C5: schema validation is all-or-nothing: one event with an empty
or missing title or a malformed time rejects the whole candidate result, and
the run then returns no events and a single warning. -/
theorem claim_C5 (raw : RawResult) (evs : List RawEvent) (ev : RawEvent)
    (hev : raw.events = some evs) (hm : ev ∈ evs)
    (hbad : ev.title = none ∨ ev.title = some ("") ∨
      badTimeB ev.startTime = true ∨ badTimeB ev.endTime = true) :
    validateResult raw = none ∧
    ∀ ( failMsg infoMsg : String) (file : FileUpload) (o : RunOracle)
      (text payload : String) (raw0 : RawResult),
      o.tryStep = Except.ok text →
      extractJsonStr (cleanResponse text) = some payload →
      o.jsParse payload = Except.ok raw0 →
      normalizeEvents raw0 = Except.ok raw →
      (runPipeline failMsg infoMsg file o).events = [] ∧
      (runPipeline failMsg infoMsg file o).warnings.length = 1 := by
  have hvnone : validateEvent ev = none := by
    cases hT : ev.title with
    | none => simp [validateEvent, hT]
    | some t =>
      cases hS : ev.startTime with
      | none => simp [validateEvent, hT, hS]
      | some st =>
        cases hE : ev.endTime with
        | none => simp [validateEvent, hT, hS, hE]
        | some et =>
          rcases hbad with h | h | h | h
          · rw [hT] at h; exact absurd h (by simp)
          · rw [hT] at h
            have ht0 : t = ("") := by injection h
            subst ht0
            simp [validateEvent, hT, hS, hE, show ("").isEmpty = true from rfl]
          · rw [hS] at h
            simp [badTimeB] at h
            simp [validateEvent, hT, hS, hE, h]
          · rw [hE] at h
            simp [badTimeB] at h
            simp [validateEvent, hT, hS, hE, h]
  have hvr : validateResult raw = none := by
    simp [validateResult, hev, mapOption_eq_none hm hvnone]
  refine ⟨hvr, ?_⟩
  intro failMsg infoMsg file o text payload raw0 h1 h2 h3 h4
  constructor
  · simp [runPipeline, h1, h2, h3, h4, hvr]
  · simp [runPipeline, h1, h2, h3, h4, hvr]

/-- Witness for C5: an empty-title event rejects the whole result and the
run returns no events with one warning. -/
theorem claim_C5_witness :
    validateResult exC5Raw = none ∧
    (runPipeline ("F: ") ("I") exPdfFile exOracleC5).events = [] ∧
    (runPipeline ("F: ") ("I") exPdfFile exOracleC5).warnings.length = 1 := by
  have h := claim_C5 exC5Raw [exC5EventNorm] exC5EventNorm rfl
    (List.mem_singleton.mpr rfl) (Or.inr (Or.inl rfl))
  have h2 := h.2 ("F: ") ("I") exPdfFile exOracleC5 exReplyText exReplyText
    exC5Raw0 rfl (by decide) rfl rfl
  exact ⟨h.1, h2.1, h2.2⟩

/-- Claim C10: when `startTime` contains the separator but `endTime` does
not, normalization leaves `endTime` undefined, so validation rejects the
whole result and the run returns no events with one warning. -/
theorem claim_C10 (ev : RawEvent) (st et : String)
    (hst : ev.startTime = some st) (hT : st.data.contains 'T' = true)
    (het : ev.endTime = some et) (hnT : et.data.contains 'T' = false) :
    (∃ ev2, normalizeEvent ev = Except.ok ev2 ∧ ev2.endTime = none) ∧
    (∀ ( failMsg infoMsg : String) (file : FileUpload) (o : RunOracle)
      (text payload : String) (raw : RawResult) (evs : List RawEvent),
      o.tryStep = Except.ok text →
      extractJsonStr (cleanResponse text) = some payload →
      o.jsParse payload = Except.ok raw →
      raw.events = some evs → ev ∈ evs →
      (runPipeline failMsg infoMsg file o).events = [] ∧
      (runPipeline failMsg infoMsg file o).warnings.length = 1) := by
  have hnomem : 'T' ∉ et.data := by simpa using hnT
  have hTm : 'T' ∈ st.data := by simpa using hT
  have hsplit : splitChar 'T' et.data = [et.data] := splitChar_of_not_mem hnomem
  have hev2 : normalizeEvent ev = Except.ok
      { ev with
          day := dayLookup (String.mk ((splitChar 'T' st.data).headD []))
          startTime := ((splitChar 'T' st.data).get? 1).map String.mk
          endTime := none } := by
    simp [normalizeEvent, hst, het, hT, hTm, hsplit]
  refine ⟨⟨_, hev2, rfl⟩, ?_⟩
  intro failMsg infoMsg file o text payload raw evs h1 h2 h3 hre hm
  cases hnorm : normalizeEvents raw with
  | error m =>
    exact ⟨by simp [runPipeline, h1, h2, h3, hnorm],
      by simp [runPipeline, h1, h2, h3, hnorm]⟩
  | ok raw2 =>
    have hnorm0 := hnorm
    simp only [normalizeEvents, hre] at hnorm
    cases hmap : mapExcept normalizeEvent evs with
    | error m => rw [hmap] at hnorm; exact absurd hnorm (by simp)
    | ok evs2 =>
      rw [hmap] at hnorm
      have hraw2 : raw2 = { raw with events := some evs2 } := by
        have hx := hnorm; simp at hx; exact hx.symm
      obtain ⟨b, hb, hbm⟩ := mapExcept_mem hmap hm
      have hbeq : Except.ok b = Except.ok
          ({ ev with
              day := dayLookup (String.mk ((splitChar 'T' st.data).headD []))
              startTime := ((splitChar 'T' st.data).get? 1).map String.mk
              endTime := none } : RawEvent) := hb.symm.trans hev2
      have hbend : b.endTime = none := by
        injection hbeq with hbb
        rw [hbb]
      have hvb : validateEvent b = none := by
        cases hTt : b.title with
        | none => simp [validateEvent, hTt]
        | some t =>
          cases hSs : b.startTime with
          | none => simp [validateEvent, hTt, hSs]
          | some sst => simp [validateEvent, hTt, hSs, hbend]
      have hvr : validateResult raw2 = none := by
        rw [hraw2]
        simp [validateResult, mapOption_eq_none hbm hvb]
      exact ⟨by simp [runPipeline, h1, h2, h3, hnorm0, hvr],
        by simp [runPipeline, h1, h2, h3, hnorm0, hvr]⟩

/-- Witness for C10: a concrete event with a combined-timestamp start and a
plain end time, run through the image pipeline. -/
theorem claim_C10_witness :
    (∃ ev2, normalizeEvent exC10Event = Except.ok ev2 ∧ ev2.endTime = none) ∧
    (runPipeline ("F: ") ("I") exImgFile exOracleC10).events = [] ∧
    (runPipeline ("F: ") ("I") exImgFile exOracleC10).warnings.length = 1 := by
  have h := claim_C10 exC10Event ("2025-11-03T13:30:00") ("14:30")
    rfl (by decide) rfl (by decide)
  have h2 := h.2 ("F: ") ("I") exImgFile exOracleC10 exReplyText exReplyText
    exC10Raw [exC10Event] rfl (by decide) rfl rfl (List.mem_singleton.mpr rfl)
  exact ⟨h.1, h2.1, h2.2⟩

theorem head_shape {l : List Char} {a : Char} (h : l.head? = some a) :
    ∃ t, l = a :: t := by
  cases l with
  | nil => simp at h
  | cons x t =>
    injection h with h0
    exact ⟨t, by rw [h0]⟩

theorem reverse_shape {l : List Char} {a : Char} (h : l.getLast? = some a) :
    ∃ t, l.reverse = a :: t := by
  have hh : l.reverse.head? = some a := by rw [List.head?_reverse]; exact h
  exact head_shape hh

theorem firstIdx_append {p : Char → Bool} :
    ∀ (l1 : List Char), (∀ x ∈ l1, p x = false) → ∀ (l2 : List Char),
      firstIdx p (l1 ++ l2) = (firstIdx p l2).map (· + l1.length)
  | [], _, l2 => by
    cases h : firstIdx p l2 <;> simp [h]
  | c :: cs, h, l2 => by
    have hc : p c = false := h c (List.mem_cons_self c cs)
    have ih := firstIdx_append cs (fun x hx => h x (List.mem_cons_of_mem c hx)) l2
    cases hf : firstIdx p l2 with
    | none => simp [firstIdx, hc, ih, hf]
    | some n => simp [firstIdx, hc, ih, hf, Nat.add_assoc]

theorem firstIdx_get {p : Char → Bool} :
    ∀ {l : List Char}, ∀ {i : Nat}, firstIdx p l = some i →
      ∃ c, l.get? i = some c ∧ p c = true
  | [], _, h => absurd h (by simp [firstIdx])
  | c :: cs, i, h => by
    by_cases hc : p c = true
    · rw [firstIdx] at h
      rw [if_pos hc] at h
      injection h with h0
      exact ⟨c, by rw [← h0]; rfl, hc⟩
    · have hc2 : p c = false := by simpa using hc
      rw [firstIdx, if_neg (by simp [hc2])] at h
      cases hf : firstIdx p cs with
      | none => rw [hf] at h; exact absurd h (by simp)
      | some n =>
        rw [hf] at h
        simp at h
        obtain ⟨c2, hg, hp⟩ := firstIdx_get hf
        refine ⟨c2, ?_, hp⟩
        rw [← h]
        simpa [List.get?] using hg

theorem firstIdx_lt_length {p : Char → Bool} {l : List Char} {i : Nat}
    (h : firstIdx p l = some i) : i < l.length := by
  obtain ⟨c, hg, -⟩ := firstIdx_get h
  obtain ⟨hlt, -⟩ := List.get?_eq_some.mp hg
  exact hlt

theorem extractJson_sandwich (pre p post : List Char)
    (hpre : lbrace ∉ pre) (hpost : rbrace ∉ post)
    (hh : p.head? = some lbrace) (hl : p.getLast? = some rbrace) :
    extractJsonList (pre ++ p ++ post) = some p := by
  obtain ⟨p1, rfl⟩ := head_shape hh
  obtain ⟨q2, hq2⟩ := reverse_shape hl
  have hp1 : 1 ≤ p1.length := by
    cases p1 with
    | nil =>
      exfalso
      have h0 : ([lbrace] : List Char).getLast? = some lbrace := rfl
      rw [h0] at hl
      injection hl with h1
      exact absurd h1 (by decide)
    | cons x q => simp
  have hf1 : firstIdx (fun c => c == lbrace) (pre ++ ((lbrace :: p1) ++ post)) =
      some pre.length := by
    rw [firstIdx_append pre (fun x hx => beq_eq_false_iff_ne.mpr
      (fun hx2 => hpre (by rw [← hx2]; exact hx)))]
    simp [firstIdx]
  have hf2 : firstIdx (fun c => c == rbrace) ((pre ++ ((lbrace :: p1) ++ post)).reverse) =
      some post.length := by
    have hr : (pre ++ ((lbrace :: p1) ++ post)).reverse =
        post.reverse ++ ((rbrace :: q2) ++ pre.reverse) := by
      rw [List.reverse_append, List.reverse_append, hq2, List.append_assoc]
    rw [hr, firstIdx_append post.reverse (fun x hx => beq_eq_false_iff_ne.mpr
      (fun hx2 => hpost (by rw [← hx2]; exact List.mem_reverse.mp hx)))]
    simp [firstIdx]
  have hlen : (pre ++ ((lbrace :: p1) ++ post)).length =
      pre.length + (p1.length + 1) + post.length := by
    simp [List.length_append]
    omega
  have hj : (pre ++ ((lbrace :: p1) ++ post)).length - 1 - post.length =
      pre.length + p1.length := by
    rw [hlen]; omega
  have hdrop : List.drop pre.length (pre ++ ((lbrace :: p1) ++ post)) =
      (lbrace :: p1) ++ post := List.drop_left pre _
  have htake : List.take (pre.length + p1.length - pre.length + 1)
      ((lbrace :: p1) ++ post) = lbrace :: p1 := by
    have he : pre.length + p1.length - pre.length + 1 = (lbrace :: p1).length := by
      simp
    rw [he]
    exact List.take_left _ _
  rw [List.append_assoc]
  simp only [extractJsonList, hf1, hf2, hj]
  rw [if_pos (by omega), hdrop, htake]

theorem extractJson_none {s : List Char}
    (H : ∀ i j, i < j → s.get? i = some lbrace → s.get? j = some rbrace → False) :
    extractJsonList s = none := by
  cases hf1 : firstIdx (fun c => c == lbrace) s with
  | none => simp [extractJsonList, hf1]
  | some i =>
    cases hf2 : firstIdx (fun c => c == rbrace) s.reverse with
    | none => simp [extractJsonList, hf1, hf2]
    | some k =>
      obtain ⟨c1, hg1, hc1⟩ := firstIdx_get hf1
      have hc1e : c1 = lbrace := by simpa using hc1
      obtain ⟨c2, hg2, hc2⟩ := firstIdx_get hf2
      have hc2e : c2 = rbrace := by simpa using hc2
      have hk : k < s.length := by
        have hx := firstIdx_lt_length hf2
        rw [List.length_reverse] at hx
        exact hx
      have hg2s : s.get? (s.length - 1 - k) = some rbrace := by
        rw [List.get?_eq_getElem?] at hg2 ⊢
        rw [List.getElem?_reverse hk] at hg2
        rw [← hc2e]
        exact hg2
      simp only [extractJsonList, hf1, hf2]
      rw [if_neg (fun hij => H i (s.length - 1 - k) hij (hc1e ▸ hg1) hg2s)]

theorem stripGo_nil (pat : List Char) : ∀ f, stripGo pat f [] = []
  | 0 => rfl
  | _ + 1 => rfl

theorem stripGo_append (pat : List Char) (c0 : Char) (hpat : pat.head? = some c0) :
    ∀ (l : List Char), c0 ∉ l → ∀ (f : Nat) (r : List Char),
      stripGo pat f (l ++ r) = l ++ stripGo pat (f - l.length) r
  | [], _, f, r => by simp
  | c :: l2, h, 0, r => by simp [stripGo, Nat.zero_sub]
  | c :: l2, h, f + 1, r => by
    obtain ⟨ps, rfl⟩ := head_shape hpat
    have hcc : c0 ≠ c := fun hcc => h (hcc ▸ List.mem_cons_self c l2)
    have hc : List.isPrefixOf (c0 :: ps) (c :: (l2 ++ r)) = false := by
      simp [List.isPrefixOf, beq_eq_false_iff_ne.mpr hcc]
    have ih := stripGo_append (c0 :: ps) c0 rfl l2
      (fun hm => h (List.mem_cons_of_mem c hm)) f r
    simp [stripGo, hc, ih, Nat.succ_sub_succ]

theorem stripGo_id (pat : List Char) (c0 : Char) (hpat : pat.head? = some c0)
    {l : List Char} (h : c0 ∉ l) (f : Nat) : stripGo pat f l = l := by
  have := stripGo_append pat c0 hpat l h f []
  simpa [stripGo_nil] using this

theorem isPrefixOf_append_self : ∀ (pat rest : List Char),
    List.isPrefixOf pat (pat ++ rest) = true
  | [], _ => by simp [List.isPrefixOf]
  | a :: as, rest => by simp [List.isPrefixOf, isPrefixOf_append_self as rest]

theorem stripGo_step (pat : List Char) (hne : pat ≠ []) (f : Nat) (rest : List Char) :
    stripGo pat (f + 1) (pat ++ rest) = stripGo pat f (dropNl rest) := by
  cases pat with
  | nil => exact absurd rfl hne
  | cons p0 ps =>
    have hpre := isPrefixOf_append_self (p0 :: ps) rest
    have hdrop : List.drop (p0 :: ps).length (p0 :: (ps ++ rest)) = rest :=
      List.drop_left (p0 :: ps) rest
    simp [stripGo, hpre, hdrop]

theorem stripGo_short (pat : List Char) :
    ∀ (l : List Char), l.length < pat.length → ∀ f, stripGo pat f l = l
  | [], _, f => stripGo_nil pat f
  | _ :: _, _, 0 => rfl
  | c :: l2, h, f + 1 => by
    have hpre : List.isPrefixOf pat (c :: l2) = false := by
      cases hp : List.isPrefixOf pat (c :: l2)
      · rfl
      · exfalso
        have hx := (List.isPrefixOf_iff_prefix.mp hp).length_le
        simp at h hx
        omega
    have ih := stripGo_short pat l2 (by simp at h ⊢; omega) f
    simp [stripGo, hpre, ih]

theorem dropWhile_append_head {q : Char → Bool} :
    ∀ (l1 : List Char) {c : Char} (l2 : List Char), q c = false →
      List.dropWhile q (l1 ++ c :: l2) = List.dropWhile q l1 ++ c :: l2
  | [], c, l2, hc => by simp [List.dropWhile, hc]
  | a :: l1', c, l2, hc => by
    by_cases ha : q a = true
    · simp [List.dropWhile, ha, dropWhile_append_head l1' l2 hc]
    · have ha2 : q a = false := by simpa using ha
      simp [List.dropWhile, ha2]

theorem trim_sandwich (pre p post : List Char)
    (hh : p.head? = some lbrace) (hl : p.getLast? = some rbrace) :
    ∃ pre2 post2, trimList (pre ++ p ++ post) = pre2 ++ p ++ post2 ∧
      (∀ x, x ∈ pre2 → x ∈ pre) ∧ (∀ x, x ∈ post2 → x ∈ post) := by
  obtain ⟨p1, rfl⟩ := head_shape hh
  obtain ⟨q2, hq2⟩ := reverse_shape hl
  refine ⟨List.dropWhile isWsChar pre, (List.dropWhile isWsChar post.reverse).reverse,
    ?_, ?_, ?_⟩
  · rw [trimList]
    have h1 : List.dropWhile isWsChar (pre ++ (lbrace :: p1) ++ post) =
        List.dropWhile isWsChar pre ++ ((lbrace :: p1) ++ post) := by
      rw [List.append_assoc, List.cons_append,
        dropWhile_append_head pre (p1 ++ post) (by decide), ← List.cons_append]
    rw [h1]
    have h2 : (List.dropWhile isWsChar pre ++ ((lbrace :: p1) ++ post)).reverse =
        post.reverse ++ (rbrace :: (q2 ++ (List.dropWhile isWsChar pre).reverse)) := by
      rw [List.reverse_append, List.reverse_append, hq2]
      simp [List.append_assoc]
    rw [h2,
      dropWhile_append_head post.reverse (q2 ++ (List.dropWhile isWsChar pre).reverse)
        (by decide)]
    have h3 : (lbrace :: p1) = q2.reverse ++ [rbrace] := by
      have h4 := congrArg List.reverse hq2
      simpa [List.reverse_reverse] using h4
    rw [h3]
    simp [List.reverse_append, List.reverse_reverse, List.append_assoc]
  · exact fun x hx => (List.dropWhile_sublist isWsChar).subset hx
  · exact fun x hx =>
      List.mem_reverse.mp ((List.dropWhile_sublist isWsChar).subset (List.mem_reverse.mp hx))

/-- Claim C6: after stripping the markdown fences the normalizer takes the
span from the first left brace to the last right brace as the JSON payload,
so a payload wrapped in a language-tagged fence, or surrounded by brace-free
prose, is still extracted; when the cleaned reply has no such span the run
records the no-JSON warning and yields no events. -/
theorem claim_C6 :
    (∀ (p : String), backtick ∉ p.data → p.data.head? = some lbrace →
      p.data.getLast? = some rbrace →
      extractJsonStr (cleanResponse (("```json\n") ++ p ++ ("\n```"))) = some p) ∧
    (∀ (pre p post : String),
      backtick ∉ pre.data → backtick ∉ p.data → backtick ∉ post.data →
      lbrace ∉ pre.data → rbrace ∉ post.data →
      p.data.head? = some lbrace → p.data.getLast? = some rbrace →
      extractJsonStr (cleanResponse (pre ++ p ++ post)) = some p) ∧
    (∀ (text : String),
      (∀ i j, i < j → (cleanResponse text).data.get? i = some lbrace →
        (cleanResponse text).data.get? j = some rbrace → False) →
      extractJsonStr (cleanResponse text) = none ∧
      ∀ ( failMsg infoMsg : String) (file : FileUpload) (o : RunOracle),
        o.tryStep = Except.ok text →
        (runPipeline failMsg infoMsg file o).events = [] ∧
        (runPipeline failMsg infoMsg file o).warnings =
          [("Claude did not return a valid JSON extraction.")]) := by
  refine ⟨?_, ?_, ?_⟩
  · intro p hbt hhd hlast
    have e1 : ("```json\n").data = fenceJson ++ ['\n'] := by decide
    have e2 : ("\n```").data = '\n' :: fence3 := by decide
    have hd : (("```json\n") ++ p ++ ("\n```")).data =
        fenceJson ++ ('\n' :: (p.data ++ ('\n' :: fence3))) := by
      rw [string_data_append, string_data_append, e1, e2]
      simp [List.append_assoc]
    have hsf : stripFences ((("```json\n") ++ p ++ ("\n```")).data) =
        p.data ++ ['\n'] := by
      rw [hd]
      simp only [stripFences]
      have hL : (fenceJson ++ ('\n' :: (p.data ++ ('\n' :: fence3)))).length =
          (p.data.length + 11) + 1 := by
        simp [fenceJson, fence3]
      rw [hL, stripGo_step fenceJson (by decide) (p.data.length + 11) _]
      have hdn : dropNl ('\n' :: (p.data ++ ('\n' :: fence3))) =
          p.data ++ ('\n' :: fence3) := by simp [dropNl]
      rw [hdn, stripGo_append fenceJson backtick rfl p.data hbt _ _]
      have h11 : p.data.length + 11 - p.data.length = 11 := by omega
      rw [h11, stripGo_short fenceJson ('\n' :: fence3) (by decide) 11]
      have hL2 : (p.data ++ ('\n' :: fence3)).length = p.data.length + 4 := by
        simp [fence3]
      rw [hL2, stripGo_append fence3 backtick rfl p.data hbt _ _]
      have h4 : p.data.length + 4 - p.data.length = 4 := by omega
      rw [h4, (by decide : stripGo fence3 4 ('\n' :: fence3) = ['\n'])]
    obtain ⟨p1, hp1⟩ := head_shape hhd
    obtain ⟨q2, hq2⟩ := reverse_shape hlast
    have htrim : trimList (p.data ++ ['\n']) = p.data := by
      rw [trimList]
      have h1 : List.dropWhile isWsChar (p.data ++ ['\n']) = p.data ++ ['\n'] := by
        rw [hp1, List.cons_append]
        simp [List.dropWhile_cons, (by decide : isWsChar lbrace = false)]
      rw [h1, List.reverse_append]
      have h2 : List.dropWhile isWsChar (['\n'].reverse ++ p.data.reverse) =
          p.data.reverse := by
        rw [hq2]
        simp [List.dropWhile_cons, (by decide : isWsChar '\n' = true),
          (by decide : isWsChar rbrace = false)]
      rw [h2, List.reverse_reverse]
    have hsw := extractJson_sandwich ([] : List Char) p.data ([] : List Char)
      (by simp) (by simp) hhd hlast
    simp only [List.nil_append, List.append_nil] at hsw
    show (extractJsonList (cleanResponse _).data).map String.mk = some p
    rw [cleanResponse]
    rw [hsf, htrim]
    simp [hsw, string_mk_data]
  · intro pre p post hbt1 hbt2 hbt3 hlb hrb hhd hlast
    have hd : (pre ++ p ++ post).data = pre.data ++ p.data ++ post.data := by
      rw [string_data_append, string_data_append]
    have hnb : backtick ∉ (pre.data ++ p.data ++ post.data) := by
      intro hm
      rcases List.mem_append.mp hm with hm1 | hm3
      · rcases List.mem_append.mp hm1 with hm0 | hm2
        · exact hbt1 hm0
        · exact hbt2 hm2
      · exact hbt3 hm3
    have hsf : stripFences ((pre ++ p ++ post).data) =
        pre.data ++ p.data ++ post.data := by
      rw [hd]
      simp only [stripFences]
      rw [stripGo_id fenceJson backtick rfl hnb, stripGo_id fence3 backtick rfl hnb]
    obtain ⟨pre2, post2, htr, hsub1, hsub2⟩ :=
      trim_sandwich pre.data p.data post.data hhd hlast
    have hres := extractJson_sandwich pre2 p.data post2
      (fun hm => hlb (hsub1 _ hm)) (fun hm => hrb (hsub2 _ hm)) hhd hlast
    show (extractJsonList (cleanResponse _).data).map String.mk = some p
    rw [cleanResponse, hsf, htr]
    rw [List.append_assoc] at hres
    simp [hres, string_mk_data]
  · intro text H
    have hnone : extractJsonList (cleanResponse text).data = none := extractJson_none H
    have hstr : extractJsonStr (cleanResponse text) = none := by
      simp [extractJsonStr, hnone]
    refine ⟨hstr, ?_⟩
    intro failMsg infoMsg file o h1
    constructor
    · simp [runPipeline, h1, hstr]
    · simp [runPipeline, h1, hstr]

/-- Witness for C6: a fenced payload is extracted; a brace-free reply yields
the no-JSON outcome. -/
theorem claim_C6_witness :
    extractJsonStr (cleanResponse (("```json\n") ++ ("\x7ba:1\x7d") ++ ("\n```"))) =
      some ("\x7ba:1\x7d") ∧
    extractJsonStr (cleanResponse ("hello")) = none := by
  constructor
  · exact claim_C6.1 ("\x7ba:1\x7d") (by decide) (by decide) (by decide)
  · exact (claim_C6.2.2 ("hello") (fun i j hij hi hj =>
      absurd (List.get?_mem hi) (by decide))).1
